import Mathlib

/-!
Verification of the halo2-merkle-tree constraint-system layer.

The development shallowly embeds the gate polynomials and the witness-side
assignment logic of the repository's chips:
  * `src/chips/merkle_v2.rs` (bool gate, swap gate, merkle_prove_layer,
    merkle_prove) — identical gates appear in merkle_v1.rs and merkle_v3.rs;
  * `src/chips/hash_1.rs` (linear hash gate `2a - b` and value `a * 2`);
  * `src/chips/hash_2.rs` (additive hash gate `a + b - c` and value `a + b`);
  * `src/circuits/merkle_v2.rs` and `src/circuits/hash_1.rs` (synthesize).

Field elements are modelled by an arbitrary field `F`, matching the Rust
code's genericity over `FieldExt`; concrete evaluations use `ZMod 5`.
A Rust panic (out-of-bounds `Vec` indexing) is modelled as `Option.none`,
distinct from a `Result::Err` which the code propagates with `?`.
-/

section Gates

variable {F : Type} [Field F]

/-- Gate polynomial of the "bool" gate of merkle_v1/v2/v3 configure:
the queried cell value `c` must satisfy `c * (1 - c) = 0` on rows where the
bool selector is enabled. -/
def boolGate (c : F) : F := c * (1 - c)

/-- Gate polynomial of the "swap" gate of merkle_v1/v2/v3 configure:
current-row cells `(a, b, c)` and next-row cells `(l, r)` must satisfy
`c * 2 * (b - a) - (l - a) - (b - r) = 0` where the swap selector is on. -/
def swapGate (a b c l r : F) : F := c * 2 * (b - a) - (l - a) - (b - r)

/-- Gate polynomial of the "hash" gate of Hash1Chip::configure:
`2 * a - b = 0`, i.e. the digest cell `b` equals twice the input cell `a`. -/
def hash1Gate (a b : F) : F := 2 * a - b

/-- Gate polynomial of the "hash" gate of Hash2Chip::configure:
`a + b - c = 0`, i.e. the digest cell `c` is the sum of the input cells. -/
def hash2Gate (a b c : F) : F := a + b - c

/-- Witness value assigned to the output cell by Hash1Chip::hash1:
`input.value() * F::from(2)`. -/
def hash1Value (a : F) : F := a * 2

/-- Witness value assigned to the output cell by Hash2Chip::hash2:
`input_a.value() + input_b.value()`. -/
def hash2Value (a b : F) : F := a + b

end Gates

section MerkleProve

variable {F : Type} [Field F] [DecidableEq F]

/-- Row-1 pair `(l, r)` computed by merkle_prove_layer (merkle_v2.rs and
merkle_v3.rs): starting from `(digest, element)`, the pair is swapped
exactly when the index value is nonzero (`if x == F::zero() ... else`). -/
def merkleSwap (digest element index : F) : F × F :=
  if index = 0 then (digest, element) else (element, digest)

/-- Digest returned by one call of merkle_prove_layer: the swap of
`(digest, element)` by `index` fed through Hash2Chip::hash2. -/
def merkleProveLayer (digest element index : F) : F :=
  hash2Value (merkleSwap digest element index).1 (merkleSwap digest element index).2

/-- The loop `for i in 1..layers` of MerkleTreeV2Chip::merkle_prove, iterating
over the remaining elements.  The Rust loop indexes `indices[i]` without a
bounds check, so exhausting `indices` before `elements` is a panic, `none`. -/
def merkleProveAux : F → List F → List F → Option F
  | d, [], _ => some d
  | d, e :: es, b :: is => merkleProveAux (merkleProveLayer d e b) es is
  | _, _ :: _, [] => none

/-- MerkleTreeV2Chip::merkle_prove (same body in merkle_v3.rs): it reads
`elements[0]` and `indices[0]` unconditionally before the loop, so an empty
`elements` or `indices` vector panics (`none`); otherwise it threads the
digest through one merkle_prove_layer per element. -/
def merkle_prove (leaf : F) (elements indices : List F) : Option F :=
  match elements, indices with
  | [], _ => none
  | _ :: _, [] => none
  | e :: es, b :: is => merkleProveAux (merkleProveLayer leaf e b) es is

/-- All gate constraints generated by one merkle_prove_layer region hold for
the cells the chip itself assigns: the bool gate on the index cell, the swap
gate relating row 0 to the assigned `(l, r)`, and the hash2 gate on the
hash region's cells. -/
def layerConstraintsOk (d e b : F) : Prop :=
  boolGate b = 0 ∧
  swapGate d e b (merkleSwap d e b).1 (merkleSwap d e b).2 = 0 ∧
  hash2Gate (merkleSwap d e b).1 (merkleSwap d e b).2 (merkleProveLayer d e b) = 0

/-- The gate constraints of every layer generated by merkle_prove hold,
threading the digest exactly as the chip does. -/
def merkleConstraintsOk : F → List F → List F → Prop
  | _, [], _ => True
  | d, e :: es, b :: is => layerConstraintsOk d e b ∧ merkleConstraintsOk (merkleProveLayer d e b) es is
  | _, _ :: _, [] => False

/-- Modelled from the spec (§8 Round-trip correctness), the refinement-side
fold: `d_0 = leaf`, `d_i = hash(left, right)` with `(left, right)` equal to
`(d_im1, s_i)` when `b_i = 0` and `(s_i, d_im1)` when `b_i = 1`, the hash
being the additive gadget. -/
def merkleFoldSpec : F → List (F × F) → F
  | d, [] => d
  | d, (s, b) :: rest =>
      merkleFoldSpec (if b = 1 then hash2Value s d else hash2Value d s) rest

end MerkleProve

section SynthesizeModel

variable {F : Type} [Field F] [DecidableEq F]

/-- One region of assigned cells: a list of (advice column, local row, value)
triples, in assignment order. -/
def Region (F : Type) : Type := List (Nat × Nat × F)

/-- The two regions assigned by one merkle_prove_layer call: the
"merkle_prove_leaf" region (row 0 holds digest, element, index; row 1 holds
the swapped pair) followed by the "hash2" region (inputs copied into columns
0 and 1, the sum into column 2). -/
def layerRegions (d e b : F) : List (Region F) :=
  [[(0, 0, d), (1, 0, e), (2, 0, b),
    (0, 1, (merkleSwap d e b).1), (1, 1, (merkleSwap d e b).2)],
   [(0, 0, (merkleSwap d e b).1), (1, 0, (merkleSwap d e b).2),
    (2, 0, merkleProveLayer d e b)]]

/-- Cell-assignment trace of the layers of merkle_prove after the first:
mirrors `merkleProveAux`, panicking (`none`) when indices run out. -/
def merkleProveTrace : F → List F → List F → Option (List (Region F))
  | _, [], _ => some []
  | d, e :: es, b :: is =>
      (merkleProveTrace (merkleProveLayer d e b) es is).map
        (fun t => layerRegions d e b ++ t)
  | _, _ :: _, [] => none

/-- Cell-assignment trace of MerkleTreeV2Circuit::synthesize for a witness
`(leaf, elements, indices)`: the "load private" region holding the leaf,
then the regions of every merkle_prove layer.  The trace records every
advice cell the synthesis assigns, so it determines the satisfiability
verdict of any later constraint check; `none` models the panic of
merkle_prove on an empty or exhausted vector. -/
def synthesizeTrace (leaf : F) (elements indices : List F) :
    Option (List (Region F)) :=
  match elements, indices with
  | [], _ => none
  | _ :: _, [] => none
  | e :: es, b :: is =>
      (merkleProveTrace (merkleProveLayer leaf e b) es is).map
        (fun t => [(0, 0, leaf)] :: (layerRegions leaf e b ++ t))

/-- The gate/wire layout of a trace: every region's cell coordinates with the
witness values erased. -/
def traceShape (t : List (Region F)) : List (List (Nat × Nat)) :=
  t.map (fun reg => reg.map (fun cell => (cell.1, cell.2.1)))

/-- Coordinates of the two regions of one layer, independent of the witness. -/
def layerShape : List (List (Nat × Nat)) :=
  [[(0, 0), (1, 0), (2, 0), (0, 1), (1, 1)], [(0, 0), (1, 0), (2, 0)]]

/-- Layout of the whole circuit as a function of the path length only. -/
def synthShape (n : Nat) : List (List (Nat × Nat)) :=
  [(0, 0)] :: (List.replicate n layerShape).flatten

end SynthesizeModel

section ErrorFlow

/-- Error flow of MerkleTreeV2Circuit::synthesize, with the outcome of each
fallible call abstracted as an `Except` value, in source order: the
statement `chip.expose_public(..., &leaf_cell, 0);` evaluates its call and
drops the Result without `?`, while `merkle_prove(...)?` and
`chip.expose_public(..., &digest, 1)?` propagate their errors. -/
def synthesizeV2ErrorFlow {E A : Type} (leafExposeResult : Except E Unit)
    (proveResult : Except E A) (rootExposeResult : Except E Unit) :
    Except E Unit :=
  match leafExposeResult, proveResult with
  | _, Except.error e => Except.error e
  | _, Except.ok _ => rootExposeResult

end ErrorFlow

section Hash1Circuit

variable {F : Type} [Field F]

/-- Satisfiability of the honest witness of Hash1Circuit::synthesize against
a public-input vector: the hash gate holds on the assigned input/output
cells, and the output cell is copy-constrained to instance row 0 (so the
vector's entry 0 must equal the assigned digest). -/
def hash1CircuitOk (a : F) (pubInput : List F) : Prop :=
  hash1Gate a (hash1Value a) = 0 ∧ pubInput.get? 0 = some (hash1Value a)

end Hash1Circuit

instance fact_prime_five : Fact (Nat.Prime 5) := ⟨by norm_num⟩

/-- C3: over any field, the boolean-gate polynomial `c * (1 - c)` vanishes
exactly when `c` is `0` or `1`; hence a witness whose direction-bit cell
holds any other value violates the bool gate on its selector-enabled row. -/
theorem boolGate_eq_zero_iff {F : Type} [Field F] (c : F) :
    boolGate c = 0 ↔ c = 0 ∨ c = 1 := by
  unfold boolGate
  rw [mul_eq_zero, sub_eq_zero]
  exact or_congr Iff.rfl eq_comm

/-- C1 (failing input): the swap gate does not enforce the documented
semantics.  With current row `(a, b, bit) = (0, 0, 0)` and next row
`(l, r) = (1, 1)` the polynomial evaluates to `0` (and the bool gate on the
bit holds too), yet `l ≠ a` and `r ≠ b`: the single constraint only pins the
sum `(l - a) + (b - r)`, so the gate accepts assignments the documentation
("Otherwise, l=a and r=b") says it must reject. -/
theorem swapGate_underconstrained :
    swapGate (0 : ZMod 5) 0 0 1 1 = 0 ∧ boolGate (0 : ZMod 5) = 0 ∧
      ¬ ((1 : ZMod 5) = 0 ∧ (1 : ZMod 5) = 0) := by
  decide

/-- C2 (counterexample): merkle_prove on the zero-length path does not return
the leaf as root; it reads `elements[0]` out of bounds and panics (`none`). -/
theorem merkle_prove_nil_ne_leaf :
    merkle_prove (3 : ZMod 5) [] [] ≠ some 3 := by
  decide

/-- C2 (amended): for every leaf and every indices vector, merkle_prove with
an empty elements vector panics via the unconditional `elements[0]` access,
modelled as `none`, instead of returning the leaf as the root. -/
theorem merkle_prove_nil_panics {F : Type} [Field F] [DecidableEq F]
    (leaf : F) (indices : List F) :
    merkle_prove leaf ([] : List F) indices = none := rfl

/-- C5: for all field values of the running digest and the sibling, the
row-1 cells assigned by merkle_prove_layer are `(digest, sibling)` when the
direction bit is `0` and `(sibling, digest)` when it is `1`. -/
theorem merkleSwap_on_bits {F : Type} [Field F] [DecidableEq F] (d s : F) :
    merkleSwap d s 0 = (d, s) ∧ merkleSwap d s 1 = (s, d) := by
  constructor
  · simp [merkleSwap]
  · simp [merkleSwap, one_ne_zero]

/-- C9: the witness-side swap of merkle_prove_layer tests the raw index
against zero, so every nonzero index value - not only `1` - swaps the pair,
while `0` keeps it; only the separate bool gate rejects values outside
`{0, 1}`. -/
theorem merkleSwap_nonzero {F : Type} [Field F] [DecidableEq F]
    (d s x : F) (hx : x ≠ 0) :
    merkleSwap d s x = (s, d) ∧ merkleSwap d s 0 = (d, s) := by
  constructor
  · simp [merkleSwap, hx]
  · simp [merkleSwap]

/-- C9 (witness): the out-of-range index value `2` already swaps the pair. -/
theorem merkleSwap_nonzero_witness :
    merkleSwap (3 : ZMod 5) 4 2 = (4, 3) ∧ merkleSwap (3 : ZMod 5) 4 0 = (3, 4) :=
  merkleSwap_nonzero 3 4 2 (by decide)

/-- C6: in the linear-hash circuit the private input `2` yields the digest
`2 * 2 = 4` exposed at instance row 0, so the honest witness satisfies the
circuit against public-input vector `[4]` and violates it against `[5]`. -/
theorem hash1Circuit_two_four {F : Type} [Field F] :
    hash1CircuitOk (2 : F) [4] ∧ ¬ hash1CircuitOk (2 : F) [5] := by
  constructor
  · constructor
    · unfold hash1Gate hash1Value
      ring
    · unfold hash1Value
      norm_num
  · rintro ⟨-, h⟩
    unfold hash1Value at h
    simp only [List.get?] at h
    have h5 : (5 : F) = 2 * 2 := Option.some.inj h
    have h1 : (1 : F) = 0 := by linear_combination h5
    exact one_ne_zero h1

/-- Helper: when the direction bit is boolean, the digest computed by
merkle_prove_layer agrees with the spec-side choice of `(left, right)`. -/
lemma merkleProveLayer_bit {F : Type} [Field F] [DecidableEq F] (d e b : F)
    (hb : b = 0 ∨ b = 1) :
    merkleProveLayer d e b = if b = 1 then hash2Value e d else hash2Value d e := by
  rcases hb with hb | hb <;> subst hb <;>
    simp [merkleProveLayer, merkleSwap, one_ne_zero, zero_ne_one]

/-- Helper: the cells assigned by one layer satisfy the bool, swap and hash2
gates whenever the direction bit is boolean. -/
lemma layerConstraintsOk_of_bit {F : Type} [Field F] [DecidableEq F] (d e b : F)
    (hb : b = 0 ∨ b = 1) : layerConstraintsOk d e b := by
  rcases hb with hb | hb <;> subst hb
  · exact ⟨by simp [boolGate],
      by simp [swapGate, merkleSwap],
      by simp [hash2Gate, merkleProveLayer, merkleSwap, hash2Value]⟩
  · refine ⟨by simp [boolGate], ?_,
      by simp [hash2Gate, merkleProveLayer, merkleSwap, hash2Value, one_ne_zero]⟩
    simp only [swapGate, merkleSwap, if_neg (one_ne_zero (α := F))]
    ring

/-- Helper: the tail loop of merkle_prove computes the spec fold when the
lists have equal length and all bits are boolean. -/
lemma merkleProveAux_eq_fold {F : Type} [Field F] [DecidableEq F] :
    ∀ (es is : List F) (d : F), is.length = es.length →
      (∀ b ∈ is, b = 0 ∨ b = 1) →
      merkleProveAux d es is = some (merkleFoldSpec d (es.zip is))
  | [], [], _, _, _ => rfl
  | [], _ :: _, _, h, _ => by simp at h
  | _ :: _, [], _, h, _ => by simp at h
  | e :: es, b :: is, d, h, hb => by
      have hb0 : b = 0 ∨ b = 1 := hb b (List.mem_cons_self _ _)
      have hrec := merkleProveAux_eq_fold es is (merkleProveLayer d e b)
        (by simpa using h) (fun x hx => hb x (List.mem_cons_of_mem _ hx))
      simp only [merkleProveAux, List.zip_cons_cons, merkleFoldSpec]
      rw [hrec, merkleProveLayer_bit d e b hb0]
      rfl

/-- Helper: all per-layer gate constraints hold along the chain when the
lists have equal length and all bits are boolean. -/
lemma merkleConstraintsOk_of_bits {F : Type} [Field F] [DecidableEq F] :
    ∀ (es is : List F) (d : F), is.length = es.length →
      (∀ b ∈ is, b = 0 ∨ b = 1) → merkleConstraintsOk d es is
  | [], [], _, _, _ => trivial
  | [], _ :: _, _, h, _ => by simp at h
  | _ :: _, [], _, h, _ => by simp at h
  | e :: es, b :: is, d, h, hb => by
      refine ⟨layerConstraintsOk_of_bit d e b (hb b (List.mem_cons_self _ _)), ?_⟩
      exact merkleConstraintsOk_of_bits es is (merkleProveLayer d e b)
        (by simpa using h) (fun x hx => hb x (List.mem_cons_of_mem _ hx))

/-- C4: for every leaf, every non-empty sibling list and every equally long
list of direction bits all in `{0, 1}`, merkle_prove with the additive hash
gadget returns exactly the left-accumulating fold of the spec, and every
gate constraint generated along the way is satisfied by the assigned
cells. -/
theorem merkle_prove_fold_correct {F : Type} [Field F] [DecidableEq F]
    (leaf : F) (es is : List F)
    (hlen : is.length = es.length) (hne : es ≠ [])
    (hb : ∀ b ∈ is, b = 0 ∨ b = 1) :
    merkle_prove leaf es is = some (merkleFoldSpec leaf (es.zip is)) ∧
      merkleConstraintsOk leaf es is := by
  constructor
  · match es, is with
    | [], _ => exact absurd rfl hne
    | _ :: _, [] => simp at hlen
    | e :: es, b :: is =>
        have hb0 : b = 0 ∨ b = 1 := hb b (List.mem_cons_self _ _)
        have hrec := merkleProveAux_eq_fold es is (merkleProveLayer leaf e b)
          (by simpa using hlen) (fun x hx => hb x (List.mem_cons_of_mem _ hx))
        simp only [merkle_prove, List.zip_cons_cons, merkleFoldSpec]
        rw [hrec, merkleProveLayer_bit leaf e b hb0]
        rfl
  · exact merkleConstraintsOk_of_bits es is leaf hlen hb

/-- C4 (witness): the repository's own test vector - leaf 99, siblings
[1, 5, 6, 9, 9], bits all 0 - taken in `ZMod 5`. -/
theorem merkle_prove_fold_correct_witness :
    merkle_prove (4 : ZMod 5) [1, 0, 1, 4, 4] [0, 0, 0, 0, 0] =
        some (merkleFoldSpec (4 : ZMod 5)
          ([1, 0, 1, 4, 4].zip [0, 0, 0, 0, 0])) ∧
      merkleConstraintsOk (4 : ZMod 5) [1, 0, 1, 4, 4] [0, 0, 0, 0, 0] :=
  merkle_prove_fold_correct 4 [1, 0, 1, 4, 4] [0, 0, 0, 0, 0]
    (by decide) (by decide) (by decide)

/-- Helper: the tail loop panics when indices are exhausted first. -/
lemma merkleProveAux_short {F : Type} [Field F] [DecidableEq F] :
    ∀ (es is : List F) (d : F), is.length < es.length →
      merkleProveAux d es is = none
  | [], _, _, h => absurd h (by simp)
  | _ :: _, [], _, _ => rfl
  | e :: es, b :: is, d, h =>
      merkleProveAux_short es is (merkleProveLayer d e b) (by simpa using h)

/-- Helper: the tail loop never looks at indices beyond the elements. -/
lemma merkleProveAux_take {F : Type} [Field F] [DecidableEq F] :
    ∀ (es is : List F) (d : F),
      merkleProveAux d es (is.take es.length) = merkleProveAux d es is
  | [], _, _ => rfl
  | _ :: _, [], _ => rfl
  | e :: es, b :: is, d =>
      merkleProveAux_take es is (merkleProveLayer d e b)

/-- C8: merkle_prove indexes `indices[i]` for every `i` below
`elements.len()` with no bounds check, so whenever the indices vector is
shorter it panics (`none`) instead of returning an error; and the layer
count is set by the elements alone - indices past `elements.len()` are
never read, so truncating them there never changes the result. -/
theorem merkle_prove_requires_indices {F : Type} [Field F] [DecidableEq F]
    (leaf : F) (es is : List F) (h : is.length < es.length) :
    merkle_prove leaf es is = none ∧
      ∀ is2 : List F,
        merkle_prove leaf es (is2.take es.length) = merkle_prove leaf es is2 := by
  constructor
  · match es, is with
    | [], _ => rfl
    | _ :: _, [] => rfl
    | e :: es, b :: is =>
        exact merkleProveAux_short es is (merkleProveLayer leaf e b)
          (by simpa using h)
  · intro is2
    match es, is2 with
    | [], _ => rfl
    | _ :: _, [] => rfl
    | e :: es, b :: is2 =>
        exact merkleProveAux_take es is2 (merkleProveLayer leaf e b)

/-- C8 (witness): two siblings but a single index panics. -/
theorem merkle_prove_requires_indices_witness :
    merkle_prove (1 : ZMod 5) [2, 3] [0] = none :=
  (merkle_prove_requires_indices 1 [2, 3] [0] (by decide)).1

/-- Helper: stripping values commutes with concatenating region lists. -/
lemma traceShape_append {F : Type} [Field F] [DecidableEq F]
    (t1 t2 : List (Region F)) :
    traceShape (t1 ++ t2) = traceShape t1 ++ traceShape t2 :=
  List.map_append _ _ _

/-- Helper: one layer's regions always have the same coordinate layout. -/
lemma traceShape_layerRegions {F : Type} [Field F] [DecidableEq F]
    (d e b : F) : traceShape (layerRegions d e b) = layerShape := rfl

/-- Helper: the loop's trace layout depends only on the element count. -/
lemma merkleProveTrace_shape {F : Type} [Field F] [DecidableEq F] :
    ∀ (es is : List F) (d : F) (t : List (Region F)),
      merkleProveTrace d es is = some t →
      traceShape t = (List.replicate es.length layerShape).flatten
  | [], _, _, _, h => by cases h; rfl
  | _ :: _, [], _, _, h => by cases h
  | e :: es, b :: is, d, t, h => by
      cases hrec : merkleProveTrace (merkleProveLayer d e b) es is with
      | none =>
          rw [merkleProveTrace, hrec] at h
          cases h
      | some t2 =>
          rw [merkleProveTrace, hrec] at h
          cases h
          rw [traceShape_append, traceShape_layerRegions,
            merkleProveTrace_shape es is (merkleProveLayer d e b) t2 hrec]
          simp [List.replicate_succ]

/-- Helper: the full synthesize trace layout depends only on path length. -/
lemma synthesizeTrace_shape {F : Type} [Field F] [DecidableEq F]
    (leaf : F) (es is : List F) (t : List (Region F))
    (h : synthesizeTrace leaf es is = some t) :
    traceShape t = synthShape es.length := by
  match es, is with
  | [], _ => cases h
  | _ :: _, [] => cases h
  | e :: es, b :: is =>
      cases hrec : merkleProveTrace (merkleProveLayer leaf e b) es is with
      | none =>
          rw [synthesizeTrace, hrec] at h
          cases h
      | some t2 =>
          rw [synthesizeTrace, hrec] at h
          cases h
          show (fun reg => reg.map fun cell => (cell.1, cell.2.1)) [(0, 0, leaf)] ::
              traceShape (layerRegions leaf e b ++ t2) = _
          rw [traceShape_append, traceShape_layerRegions,
            merkleProveTrace_shape es is (merkleProveLayer leaf e b) t2 hrec]
          simp [synthShape, List.replicate_succ]

/-- C7: synthesize is deterministic - identical witnesses give identical
cell-assignment traces (and the trace determines the satisfiability
verdict) - and its gate/wire layout is witness-independent: any two
successful syntheses over equally long paths produce traces with identical
cell coordinates, differing only in cell contents. -/
theorem synthesize_deterministic {F : Type} [Field F] [DecidableEq F]
    (leaf leaf2 : F) (es es2 is is2 : List F)
    (h1 : leaf = leaf2) (h2 : es = es2) (h3 : is = is2) :
    synthesizeTrace leaf es is = synthesizeTrace leaf2 es2 is2 ∧
      ∀ (z : F) (zs zi : List F) (t tz : List (Region F)),
        zs.length = es.length →
        synthesizeTrace leaf es is = some t →
        synthesizeTrace z zs zi = some tz →
        traceShape t = traceShape tz := by
  subst h1
  subst h2
  subst h3
  refine ⟨rfl, ?_⟩
  intro z zs zi t tz hlen ht htz
  rw [synthesizeTrace_shape leaf es is t ht, synthesizeTrace_shape z zs zi tz htz,
    hlen]

/-- C7 (witness): a concrete one-layer instance of determinism. -/
theorem synthesize_deterministic_witness :
    synthesizeTrace (1 : ZMod 5) [2] [0] = synthesizeTrace (1 : ZMod 5) [2] [0] :=
  (synthesize_deterministic 1 1 [2] [2] [0] [0] rfl rfl rfl).1

/-- C10: the Result of the leaf-row expose_public call is discarded by
MerkleTreeV2Circuit::synthesize, so a failure there neither propagates nor
changes the outcome - synthesize still returns Ok(()) when the remaining
calls succeed - while an error from the root-row expose_public (instance
row 1) is propagated. -/
theorem synthesizeV2_discards_leaf_expose {E A : Type}
    (e : E) (l : Except E Unit) (p : Except E A) (a : A) :
    synthesizeV2ErrorFlow (Except.error e) p (Except.ok ()) =
        synthesizeV2ErrorFlow (Except.ok ()) p (Except.ok ()) ∧
      synthesizeV2ErrorFlow (Except.error e) (Except.ok a) (Except.ok ()) =
        Except.ok () ∧
      synthesizeV2ErrorFlow l (Except.ok a) (Except.error e) =
        Except.error e := by
  refine ⟨?_, rfl, ?_⟩
  · cases p <;> rfl
  · cases l <;> rfl
